import Mathlib

/-!
Verification of the decision-making core of the asset-factory plugin
(text-role classification, layer naming/ordering, theme application,
compliance auditing, feedback aggregation).

The definitions below are a shallow embedding of the TypeScript sources
(`src/core/text-analyzer.ts`, `src/core/layer-manager.ts`,
`src/core/theme-engine.ts`, `src/core/audit-engine.ts`,
`src/config/defaults.ts`).  JavaScript strings are modelled as Lean
`String`s (lists of characters); JavaScript numbers are modelled as exact
rationals `ℚ` (no arithmetic in this core depends on binary-float
rounding); `Array.prototype.sort`, which ES2019 guarantees to be stable,
is modelled by a stable insertion sort over the comparator's key.
-/

/-! ## JavaScript string primitives (on `List Char`) -/

/-- `toLowerCase` (all source strings are ASCII). -/
def lowerCL (l : List Char) : List Char := l.map Char.toLower

/-- `toUpperCase` (all source strings are ASCII). -/
def upperCL (l : List Char) : List Char := l.map Char.toUpper

/-- `String.prototype.trim`: strip leading/trailing whitespace. -/
def trimCL (l : List Char) : List Char :=
  ((l.dropWhile Char.isWhitespace).reverse.dropWhile Char.isWhitespace).reverse

/-- `String.prototype.includes`: contiguous-substring test. -/
def containsCL (hay needle : List Char) : Bool :=
  match hay with
  | [] => needle.isEmpty
  | _ :: t => needle.isPrefixOf hay || containsCL t needle

/-- Word counting on a character list: number of maximal nonempty runs of
non-whitespace characters (`split(/\s+/).filter(w => w.length > 0).length`).
The flag records whether we are inside a word. -/
def cwAux : Bool → List Char → Nat
  | _, [] => 0
  | inw, c :: rest =>
    if c.isWhitespace then cwAux false rest
    else (if inw then 0 else 1) + cwAux true rest

/-- `countWords` from `text-analyzer.ts`: trim, split on whitespace, count
nonempty tokens. -/
def countWords (text : String) : Nat := cwAux false (trimCL text.data)

/-! ## TextAnalyzer (`src/core/text-analyzer.ts`) -/

/-- The five text roles (`AnalyzedText['type']`). -/
inductive Role where
  | headline | subhead | body | cta | tag
deriving DecidableEq, Repr

/-- `TextInput`: raw text plus optional explicit role. -/
structure TextInput where
  text : String
  type : Option Role
deriving DecidableEq, Repr

/-- `AnalyzedText`. -/
structure AnalyzedText where
  text : String
  type : Role
  wordCount : Nat
  charCount : Nat
  hasAction : Bool
  isPunctated : Bool
  confidence : ℚ
deriving DecidableEq, Repr

/-- `CTA_WORDS`. -/
def CTA_WORDS : List String :=
  ["learn", "get", "join", "start", "try", "discover", "explore",
   "sign up", "subscribe", "download", "buy", "shop", "order",
   "contact", "call", "book", "register", "apply", "claim",
   "read", "watch", "listen", "view", "see", "check",
   "click", "tap", "swipe", "scroll"]

/-- Words of the first three `TAG_PATTERNS` regexes (anchored,
case-insensitive alternations; `how-?to` contributes both spellings). -/
def TAG_WORDS : List String :=
  ["new", "hot", "sale", "trending", "featured", "exclusive", "limited",
   "update", "news", "blog", "post", "article",
   "tip", "guide", "howto", "how-to", "tutorial"]

/-- JS regex `\w`: `[A-Za-z0-9_]`. -/
def isWordChar (c : Char) : Bool :=
  (c.isAlpha && c.toNat < 128) || c.isDigit || c == '_'

/-- `^#\w+$`. -/
def hashTagMatch : List Char → Bool
  | '#' :: rest => !rest.isEmpty && rest.all isWordChar
  | _ => false

/-- `^\d{1,2}\/\d{1,2}$`. -/
def dateMatch : List Char → Bool
  | [a, s, b] => a.isDigit && s == '/' && b.isDigit
  | [a, b, s, c] =>
    (a.isDigit && b.isDigit && s == '/' && c.isDigit) ||
    (a.isDigit && b == '/' && s.isDigit && c.isDigit)
  | [a, b, s, c, d] => a.isDigit && b.isDigit && s == '/' && c.isDigit && d.isDigit
  | _ => false

/-- `TAG_PATTERNS` disjunction, tested against the trimmed text. -/
def matchesTagPattern (trimmed : List Char) : Bool :=
  TAG_WORDS.any (fun w => lowerCL trimmed == w.data) ||
  hashTagMatch trimmed || dateMatch trimmed

/-- `TextAnalyzer.isTag`: reject word counts above 3, then try the fixed
patterns, then the short-all-caps test. -/
def isTag (text : String) : Bool :=
  let trimmed := trimCL text.data
  if 3 < cwAux false trimmed then false
  else if matchesTagPattern trimmed then true
  else if trimmed == upperCL trimmed && trimmed.length ≤ 15 then true
  else false

/-- `TextAnalyzer.hasActionWord`: case-insensitive substring match against
`CTA_WORDS`, or an arrow glyph (U+2192, U+279C, U+27A1, U+25BA, U+25B6). -/
def hasActionWord (text : String) : Bool :=
  let low := lowerCL text.data
  CTA_WORDS.any (fun w => containsCL low w.data) ||
  text.data.any (fun c =>
    c.toNat = 0x2192 || c.toNat = 0x279C || c.toNat = 0x27A1 ||
    c.toNat = 0x25BA || c.toNat = 0x25B6)

/-- `TextAnalyzer.hasPunctuation`: trimmed text ends with `.`, `!` or `?`. -/
def hasPunctuation (text : String) : Bool :=
  match (trimCL text.data).getLast? with
  | some c => c == '.' || c == '!' || c == '?'
  | none => false

/-- `TextAnalyzer.detectType`: priority-ordered per-item role decision with
fixed per-rule confidences. -/
def detectType (text : String) : AnalyzedText :=
  let wordCount := countWords text
  let charCount := text.length
  let hasAction := hasActionWord text
  let isPunctated := hasPunctuation text
  if isTag text then
    ⟨text, Role.tag, wordCount, charCount, hasAction, isPunctated, 0.9⟩
  else if hasAction && wordCount ≤ 5 then
    ⟨text, Role.cta, wordCount, charCount, hasAction, isPunctated, 0.85⟩
  else if wordCount ≤ 10 && !isPunctated then
    ⟨text, Role.headline, wordCount, charCount, hasAction, isPunctated, 0.8⟩
  else if wordCount ≤ 30 then
    ⟨text, Role.subhead, wordCount, charCount, hasAction, isPunctated, 0.75⟩
  else
    ⟨text, Role.body, wordCount, charCount, hasAction, isPunctated, 0.7⟩

/-- Per-item step of `TextAnalyzer.analyze`: an explicit role is copied with
confidence 1.0, otherwise `detectType` runs. -/
def classifyInput (input : TextInput) : AnalyzedText :=
  match input.type with
  | some t =>
    ⟨input.text, t, countWords input.text, input.text.length,
     hasActionWord input.text, hasPunctuation input.text, 1⟩
  | none => detectType input.text

/-- Demotion pass of `ensureHierarchy`: every `headline` after the first
(tracked by `foundFirst`) becomes `subhead` with confidence × 0.8. -/
def demoteExtra (foundFirst : Bool) : List AnalyzedText → List AnalyzedText
  | [] => []
  | r :: rest =>
    if r.type = Role.headline then
      (if foundFirst then
        { r with type := Role.subhead, confidence := r.confidence * 0.8 }
       else r) :: demoteExtra true rest
    else r :: demoteExtra foundFirst rest

/-- Promotion pass of `ensureHierarchy`: the first item with
`wordCount ≤ 15` and role not `cta`/`tag` becomes `headline` with
confidence × 0.7 (no candidate: no change). -/
def promoteCandidate : List AnalyzedText → List AnalyzedText
  | [] => []
  | r :: rest =>
    if r.wordCount ≤ 15 && r.type != Role.cta && r.type != Role.tag then
      { r with type := Role.headline, confidence := r.confidence * 0.7 } :: rest
    else r :: promoteCandidate rest

/-- `typeOrder.indexOf`, for `['tag','headline','subhead','body','cta']`. -/
def typeOrderIdx : Role → Nat
  | Role.tag => 0
  | Role.headline => 1
  | Role.subhead => 2
  | Role.body => 3
  | Role.cta => 4

/-- Stable insertion: `r` goes before the first element not strictly
before it under `lt`; an element equal under `lt` keeps its earlier place. -/
def insertS (lt : α → α → Bool) (r : α) : List α → List α
  | [] => [r]
  | x :: xs => if lt x r then x :: insertS lt r xs else r :: x :: xs

/-- Stable sort by the strict ordering `lt` (models ES2019's stable
`Array.prototype.sort` under a comparator inducing a total preorder). -/
def sortS (lt : α → α → Bool) : List α → List α
  | [] => []
  | r :: rest => insertS lt r (sortS lt rest)

/-- `TextAnalyzer.ensureHierarchy`: headline demotion when more than one,
promotion when none, then stable sort by role priority. -/
def ensureHierarchy (results : List AnalyzedText) : List AnalyzedText :=
  let headlineCount := (results.filter (fun r => r.type = Role.headline)).length
  let adjusted := if 1 < headlineCount then demoteExtra false results else results
  let adjusted2 :=
    if headlineCount = 0 ∧ 0 < adjusted.length then promoteCandidate adjusted
    else adjusted
  sortS (fun a b => typeOrderIdx a.type < typeOrderIdx b.type) adjusted2

/-- `TextAnalyzer.analyze`. -/
def analyze (inputs : List TextInput) : List AnalyzedText :=
  ensureHierarchy (inputs.map classifyInput)

/-! ## Node tree model

The document model shared by LayerManager, ThemeEngine and AuditEngine:
containers (`FRAME`, `GROUP`) own an ordered list of children; leaf kinds
carry drawable content.  `fontFamily = none` models the `figma.mixed`
sentinel of a text node's `fontName`. -/

inductive NodeType where
  | FRAME | GROUP | TEXT | ELLIPSE | RECTANGLE
deriving DecidableEq, Repr

structure RGB where
  r : ℚ
  g : ℚ
  b : ℚ
deriving DecidableEq, Repr

/-- A paint: a solid fill or the fixed two-stop linear gradient the theme
engine builds (its `gradientTransform` is a constant, omitted here). -/
inductive Paint where
  | solid (color : RGB)
  | gradientLinear (stop0 stop1 : RGB)
deriving DecidableEq, Repr

inductive Node where
  | mk (id : String) (name : String) (type : NodeType) (children : List Node)
      (fills : List Paint) (visible : Bool) (width : ℚ) (height : ℚ)
      (fontFamily : Option String)

def Node.id : Node → String
  | .mk i _ _ _ _ _ _ _ _ => i

def Node.name : Node → String
  | .mk _ n _ _ _ _ _ _ _ => n

def Node.type : Node → NodeType
  | .mk _ _ t _ _ _ _ _ _ => t

def Node.children : Node → List Node
  | .mk _ _ _ c _ _ _ _ _ => c

def Node.fills : Node → List Paint
  | .mk _ _ _ _ f _ _ _ _ => f

def Node.visible : Node → Bool
  | .mk _ _ _ _ _ v _ _ _ => v

def Node.width : Node → ℚ
  | .mk _ _ _ _ _ _ w _ _ => w

def Node.height : Node → ℚ
  | .mk _ _ _ _ _ _ _ h _ => h

def Node.fontFamily : Node → Option String
  | .mk _ _ _ _ _ _ _ _ f => f

/-- `node.name = nm` (in-place rename). -/
def Node.setName : Node → String → Node
  | .mk i _ t c f v w h ff, n => .mk i n t c f v w h ff

/-- Replace the child list (models in-place child reordering/rewriting). -/
def Node.setChildren : Node → List Node → Node
  | .mk i n t _ f v w h ff, c => .mk i n t c f v w h ff

/-- `node.fills = ...`. -/
def Node.setFills : Node → List Paint → Node
  | .mk i n t c _ v w h ff, f => .mk i n t c f v w h ff

/-- `node.visible = ...`. -/
def Node.setVisible : Node → Bool → Node
  | .mk i n t c f _ w h ff, v => .mk i n t c f v w h ff

/-- The `'children' in node` test: only container kinds expose children. -/
def hasChildrenKind (t : NodeType) : Bool :=
  t == NodeType.FRAME || t == NodeType.GROUP

/-! ## LayerManager (`src/core/layer-manager.ts`) and `LAYER_NAMES` -/

namespace LAYER_NAMES

def root : String := "Asset Frame"
def content : String := "content"
def headline : String := "headline"
def subhead : String := "subhead"
def body : String := "body"
def cta : String := "cta"
def tag : String := "tag"
def branding : String := "branding"
def logo : String := "logo"
def tagline : String := "tagline"
def decorative : String := "decorative"
def glow : String := "glow"
def accentShape : String := "accent-shape"
def pattern : String := "pattern"
def background : String := "background"

end LAYER_NAMES

/-- `includes` on `String`. -/
def containsS (s w : String) : Bool := containsCL s.data w.data

/-- `toLowerCase` on `String`. -/
def lowerS (s : String) : String := ⟨lowerCL s.data⟩

/-- The rule table of `LayerManager.getNormalizedName` over the
lower-cased current name `cn`, dispatched on the node kind.  The source's
nested `if (node.type === 'TEXT') { ... }` blocks fall through when no
inner rule returns, so the chain is flattened here with the kind test
conjoined to each rule. -/
def gnn (cn : String) (ty : NodeType) : Option String :=
  if ty == NodeType.TEXT && containsS cn "head" && !containsS cn "sub" then
    some LAYER_NAMES.headline
  else if ty == NodeType.TEXT && containsS cn "sub" then
    some LAYER_NAMES.subhead
  else if ty == NodeType.TEXT && (containsS cn "body" || containsS cn "description") then
    some LAYER_NAMES.body
  else if ty == NodeType.TEXT && (containsS cn "cta" || containsS cn "button") then
    some LAYER_NAMES.cta
  else if ty == NodeType.TEXT && (containsS cn "tag" || containsS cn "label") then
    some LAYER_NAMES.tag
  else if (ty == NodeType.FRAME || ty == NodeType.GROUP) &&
      (containsS cn "content" || containsS cn "text") then
    some LAYER_NAMES.content
  else if (ty == NodeType.FRAME || ty == NodeType.GROUP) &&
      (containsS cn "brand" || containsS cn "logo") then
    some LAYER_NAMES.branding
  else if (ty == NodeType.FRAME || ty == NodeType.GROUP) &&
      (containsS cn "decor" || containsS cn "effect") then
    some LAYER_NAMES.decorative
  else if (ty == NodeType.FRAME || ty == NodeType.GROUP) &&
      (containsS cn "background" || containsS cn "bg") then
    some LAYER_NAMES.background
  else if containsS cn "logo" && !(ty == NodeType.TEXT) then
    some LAYER_NAMES.logo
  else if ty == NodeType.ELLIPSE && (containsS cn "glow" || containsS cn "blur") then
    some LAYER_NAMES.glow
  else none

/-- `LayerManager.getNormalizedName`: lower-case the current name, then
apply the rule table. -/
def getNormalizedName (nodeName : String) (ty : NodeType) : Option String :=
  gnn (lowerS nodeName) ty

mutual

/-- One child's treatment in `LayerManager.normalizeLayerNames`: rename
when the table matches, then recurse into the child's own children. -/
def normalizeNode : Node → Node
  | .mk i nm ty cs f v w h ff =>
    let newName :=
      match getNormalizedName nm ty with
      | some m => m
      | none => nm
    .mk i newName ty (normalizeList cs) f v w h ff
termination_by n => sizeOf n

def normalizeList : List Node → List Node
  | [] => []
  | c :: cs => normalizeNode c :: normalizeList cs
termination_by l => sizeOf l

end

/-- `LayerManager.normalizeLayerNames` applied at the root: every
descendant is renamed; the root itself keeps its name. -/
def normalizeLayerNames (node : Node) : Node :=
  node.setChildren (normalizeList node.children)

/-- The fixed front-to-back order of `organizeLayerOrder`. -/
def LAYER_ORDER : List String :=
  [LAYER_NAMES.background, LAYER_NAMES.decorative, LAYER_NAMES.branding,
   LAYER_NAMES.content]

/-- Remove the first child bearing name `nm`, keeping the rest in order. -/
def removeFirstWithName (nm : String) : List Node → Option (Node × List Node)
  | [] => none
  | c :: cs =>
    if c.name = nm then some (c, cs)
    else
      match removeFirstWithName nm cs with
      | none => none
      | some (d, rest) => some (d, c :: rest)

/-- Collect, in the order of `names`, the first child bearing each name
(the source's `children.find` per name), and the remaining children in
their original relative order (the source's identity-based
`!orderedChildren.includes(child)` filter).  Extracting the first
occurrences one name at a time coincides with finding each name in the
original list because the four canonical names are pairwise distinct and
a child bears exactly one name. -/
def extractAll (names : List String) (cs : List Node) : List Node × List Node :=
  match names with
  | [] => ([], cs)
  | nm :: nms =>
    match removeFirstWithName nm cs with
    | none => extractAll nms cs
    | some (c, rest) =>
      let (pk, rem) := extractAll nms rest
      (c :: pk, rem)

/-- `LayerManager.organizeLayerOrder` on the root's child list: canonical
layers first in the fixed order, all remaining children after them in
their original relative order (the trailing `insertChild` loop realizes
exactly this sequence). -/
def organizeLayerOrder (cs : List Node) : List Node :=
  let (ordered, others) := extractAll LAYER_ORDER cs
  ordered ++ others

/-- `LayerManager.applyNaming`: normalize all descendant names, then
reorder the root's direct children. -/
def applyNaming (node : Node) : Node :=
  let n1 := normalizeLayerNames node
  n1.setChildren (organizeLayerOrder n1.children)

structure ValidationResult where
  valid : Bool
  errors : List String
  warnings : List String
  suggestions : List String
deriving DecidableEq, Repr

/-- `LayerManager.validate`.  `mapStructure` records a key exactly when a
direct child bears the corresponding canonical name (its value — `true` or
a possibly empty object — is always truthy), so the three key lookups
reduce to direct-child name tests. -/
def validate (node : Node) : ValidationResult :=
  if node.type ≠ NodeType.FRAME then
    ⟨false, ["Root node must be a FRAME"], [], []⟩
  else
    let errors :=
      if node.children.any (fun c => c.name == LAYER_NAMES.content) then []
      else ["Missing required layer: " ++ LAYER_NAMES.content]
    let warnings :=
      if node.children.any (fun c => c.name == LAYER_NAMES.branding) then []
      else ["Missing layer: " ++ LAYER_NAMES.branding]
    let suggestions :=
      if node.children.any (fun c => c.name == LAYER_NAMES.decorative) then []
      else ["Consider adding a decorative group"]
    ⟨errors.isEmpty, errors, warnings, suggestions⟩

mutual

/-- `LayerManager.findLayer` / `ThemeEngine.findLayerByName`: first-match
pre-order depth-first search by exact name. -/
def findLayer (nm : String) : Node → Option Node
  | .mk i name ty cs f v w h ff =>
    if name = nm then some (.mk i name ty cs f v w h ff)
    else findLayerList nm cs
termination_by n => sizeOf n

def findLayerList (nm : String) : List Node → Option Node
  | [] => none
  | c :: cs =>
    match findLayer nm c with
    | some x => some x
    | none => findLayerList nm cs
termination_by l => sizeOf l

end

mutual

/-- `LayerManager.getTextLayers` / `ThemeEngine.findTextLayers`: pre-order
collection of all `TEXT` nodes. -/
def getTextLayers : Node → List Node
  | .mk i name ty cs f v w h ff =>
    (if ty = NodeType.TEXT then [Node.mk i name ty cs f v w h ff] else []) ++
      getTextLayersList cs
termination_by n => sizeOf n

def getTextLayersList : List Node → List Node
  | [] => []
  | c :: cs => getTextLayers c ++ getTextLayersList cs
termination_by l => sizeOf l

end

/-! ## ThemeEngine (`src/core/theme-engine.ts`) with `THEMES` and
`DEFAULT_COLORS` from `src/config/defaults.ts` -/

structure ThemeDefinition where
  name : String
  description : String
  background : String
  text : String
  accent : String
  useGlow : Bool
deriving DecidableEq, Repr

/-- Result of the JS property access `THEMES[themeName]` on the plain
object literal `THEMES`: one of the five own entries; or, because the
literal inherits from `Object.prototype`, a truthy inherited member (a
function, or `Object.prototype` itself for `__proto__`) on which every
theme field reads as `undefined`; or `undefined`. -/
inductive ThemeLookup where
  | registered (theme : ThemeDefinition)
  | protoMember
  | undef
deriving DecidableEq, Repr

/-- The own-property names of `Object.prototype`: for these ids the
lookup `THEMES[themeName]` does not miss, so `if (!theme) return` does
not fire. -/
def OBJECT_PROTOTYPE_KEYS : List String :=
  ["constructor", "hasOwnProperty", "isPrototypeOf", "propertyIsEnumerable",
   "toLocaleString", "toString", "valueOf", "__defineGetter__",
   "__defineSetter__", "__lookupGetter__", "__lookupSetter__", "__proto__"]

/-- The fixed five-entry theme registry of `defaults.ts`, looked up as a
JS property access including the `Object.prototype` chain. -/
def THEMES (id : String) : ThemeLookup :=
  if id = "dark" then
    ThemeLookup.registered ⟨"Dark Mode", "Professional, sleek",
      "background_dark", "text_light", "primary", true⟩
  else if id = "light" then
    ThemeLookup.registered ⟨"Light Mode", "Clean, accessible",
      "background_light", "text_dark", "primary", false⟩
  else if id = "bold" then
    ThemeLookup.registered ⟨"Bold", "High impact", "primary", "text_light",
      "secondary", false⟩
  else if id = "minimal" then
    ThemeLookup.registered ⟨"Minimal", "Simple, elegant", "background_light",
      "primary", "accent", false⟩
  else if id = "gradient" then
    ThemeLookup.registered ⟨"Gradient", "Dynamic, modern", "gradient",
      "text_light", "accent", true⟩
  else if OBJECT_PROTOTYPE_KEYS.contains id then ThemeLookup.protoMember
  else ThemeLookup.undef

/-- `DEFAULT_COLORS` as a key lookup. -/
def DEFAULT_COLORS : String → Option String := fun k =>
  if k = "primary" then some "#3B82F6"
  else if k = "secondary" then some "#1E293B"
  else if k = "accent" then some "#10B981"
  else if k = "background_light" then some "#F8FAFC"
  else if k = "background_dark" then some "#0F172A"
  else if k = "text_light" then some "#F8FAFC"
  else if k = "text_dark" then some "#0F172A"
  else none

/-- The fields of `BrandConfig` this core reads: the palette (a key → hex
map, extra keys allowed) and the two typography font families.  `none`
models an absent key / absent section. -/
structure BrandConfig where
  colors : String → Option String
  typographyHeadlineFont : Option String
  typographyBodyFont : Option String

/-- JS truthiness for a string-valued lookup: `undefined` and `""` are
falsy in an `a || b` chain. -/
def jsOrFalsy (o : Option String) : Option String :=
  match o with
  | some "" => none
  | x => x

/-- Hexadecimal digit value (`[a-f\d]`, case-insensitive). -/
def hexVal (c : Char) : Option Nat :=
  if c.isDigit then some (c.toNat - 48)
  else if 'a' ≤ c ∧ c ≤ 'f' then some (c.toNat - 97 + 10)
  else if 'A' ≤ c ∧ c ≤ 'F' then some (c.toNat - 65 + 10)
  else none

/-- `ThemeEngine.hexToRgb`: 6 hex digits with optional leading `#`, each
channel divided by 255; anything malformed resolves to black. -/
def hexToRgb (hex : String) : RGB :=
  let l := match hex.data with
    | '#' :: rest => rest
    | l => l
  match l with
  | [a, b, c, d, e, f] =>
    match hexVal a, hexVal b, hexVal c, hexVal d, hexVal e, hexVal f with
    | some va, some vb, some vc, some vd, some ve, some vf =>
      ⟨(16 * va + vb : ℚ) / 255, (16 * vc + vd : ℚ) / 255,
       (16 * ve + vf : ℚ) / 255⟩
    | _, _, _, _, _, _ => ⟨0, 0, 0⟩
  | _ => ⟨0, 0, 0⟩

/-- `ThemeEngine.getColor`: brand palette if configured else defaults,
falling back key-by-key to `DEFAULT_COLORS` and then `'#000000'`. -/
def getColor (config : Option BrandConfig) (key : String) : RGB :=
  let palette : String → Option String :=
    match config with
    | some c => c.colors
    | none => DEFAULT_COLORS
  hexToRgb ((jsOrFalsy (palette key)).getD
    ((jsOrFalsy (DEFAULT_COLORS key)).getD "#000000"))

/-- `ThemeEngine.applyBackgroundColor`: the sentinel background key
`"gradient"` gets the fixed two-stop `primary → secondary` linear
gradient, otherwise a solid fill from the theme's background key. -/
def applyBackgroundColor (config : Option BrandConfig) (theme : ThemeDefinition)
    (frame : Node) : Node :=
  if theme.background = "gradient" then
    frame.setFills
      [Paint.gradientLinear (getColor config "primary") (getColor config "secondary")]
  else
    frame.setFills [Paint.solid (getColor config theme.background)]

mutual

/-- `ThemeEngine.applyTextColors`: every `TEXT` node found by the recursive
search, except the one(s) named `cta`, gets a solid fill from the theme's
text color key. -/
def setTextFills (paint : List Paint) : Node → Node
  | .mk i name ty cs f v w h ff =>
    let f2 := if ty = NodeType.TEXT ∧ name ≠ LAYER_NAMES.cta then paint else f
    .mk i name ty (setTextFillsList paint cs) f2 v w h ff
termination_by n => sizeOf n

def setTextFillsList (paint : List Paint) : List Node → List Node
  | [] => []
  | c :: cs => setTextFills paint c :: setTextFillsList paint cs
termination_by l => sizeOf l

end

def applyTextColors (config : Option BrandConfig) (theme : ThemeDefinition)
    (frame : Node) : Node :=
  setTextFills [Paint.solid (getColor config theme.text)] frame

mutual

/-- In-place mutation of the first node (pre-order, by exact name) that a
recursive name search finds; the Bool reports whether it was found. -/
def updateFirstNamed (nm : String) (f : Node → Node) : Node → Node × Bool
  | .mk i name ty cs fl v w h ff =>
    if name = nm then (f (.mk i name ty cs fl v w h ff), true)
    else
      let (cs2, found) := updateFirstNamedList nm f cs
      (.mk i name ty cs2 fl v w h ff, found)
termination_by n => sizeOf n

def updateFirstNamedList (nm : String) (f : Node → Node) :
    List Node → List Node × Bool
  | [] => ([], false)
  | c :: cs =>
    let (c2, found) := updateFirstNamed nm f c
    if found then (c2 :: cs, true)
    else
      let (rest, fr) := updateFirstNamedList nm f cs
      (c :: rest, fr)
termination_by l => sizeOf l

end

/-- `ThemeEngine.applyAccentColors`: if the first node named `cta` is a
`TEXT` node it gets a solid fill from the theme's accent key. -/
def applyAccentColors (config : Option BrandConfig) (theme : ThemeDefinition)
    (frame : Node) : Node :=
  match findLayer LAYER_NAMES.cta frame with
  | some ctaNode =>
    if ctaNode.type = NodeType.TEXT then
      (updateFirstNamed LAYER_NAMES.cta
        (fun n => n.setFills [Paint.solid (getColor config theme.accent)])
        frame).1
    else frame
  | none => frame

/-- `ThemeEngine.applyGlowEffect`: inside the first `decorative` container
(if any), the first node named `glow` (if any) gets its visibility set to
the theme's `useGlow` flag; absence of either is a silent no-op. -/
def applyGlowEffect (theme : ThemeDefinition) (frame : Node) : Node :=
  match findLayer LAYER_NAMES.decorative frame with
  | some dg =>
    if hasChildrenKind dg.type then
      match findLayer LAYER_NAMES.glow dg with
      | some _ =>
        (updateFirstNamed LAYER_NAMES.decorative
          (fun d =>
            (updateFirstNamed LAYER_NAMES.glow
              (fun g => g.setVisible theme.useGlow) d).1)
          frame).1
      | none => frame
    else frame
  | none => frame

/-- `ThemeEngine.apply`: a falsy lookup is a silent no-op; otherwise
background, text colors, accent, glow run in that order.  When the
lookup hits an inherited `Object.prototype` member, every theme field
reads as `undefined`: a property access with an `undefined` key coerces
it to the string key `"undefined"`, `undefined !== 'gradient'`, and
`undefined` is falsy in the glow test — exactly the behaviour of the
synthetic record used in that branch (`apply` never reads `name` or
`description`). -/
def themeApply (config : Option BrandConfig) (frame : Node)
    (themeName : String) : Node :=
  match THEMES themeName with
  | ThemeLookup.undef => frame
  | ThemeLookup.registered theme =>
    applyGlowEffect theme
      (applyAccentColors config theme
        (applyTextColors config theme
          (applyBackgroundColor config theme frame)))
  | ThemeLookup.protoMember =>
    let theme : ThemeDefinition :=
      ⟨"", "", "undefined", "undefined", "undefined", false⟩
    applyGlowEffect theme
      (applyAccentColors config theme
        (applyTextColors config theme
          (applyBackgroundColor config theme frame)))

/-! ## AuditEngine (`src/core/audit-engine.ts`) -/

inductive Severity where
  | error | warning | info
deriving DecidableEq, Repr

structure AuditCheck where
  name : String
  passed : Bool
  message : String
  severity : Severity
deriving DecidableEq, Repr

structure AuditResult where
  nodeId : String
  nodeName : String
  passed : Bool
  score : ℤ
  checks : List AuditCheck
  warnings : List String
  timestamp : ℤ
deriving DecidableEq, Repr

/-- JS `Math.round`: round half towards +∞. -/
def jsRound (x : ℚ) : ℤ := ⌊x + 1 / 2⌋

def checkColorCompliance (_frame : Node) : AuditCheck :=
  ⟨"Color Compliance", true, "All colors match brand palette", Severity.error⟩

/-- `AuditEngine.checkTypography`: the first text layer whose concrete font
family is outside the allow-list fails the check (`figma.mixed` fonts are
skipped). -/
def checkTypography (config : Option BrandConfig) (frame : Node) : AuditCheck :=
  let allowedFonts :=
    [(jsOrFalsy (config.bind (·.typographyHeadlineFont))).getD "Inter",
     (jsOrFalsy (config.bind (·.typographyBodyFont))).getD "Inter"]
  match (getTextLayers frame).find? (fun t =>
      match t.fontFamily with
      | some fam => !(allowedFonts.contains fam)
      | none => false) with
  | some t =>
    ⟨"Typography", false, "Non-brand font: " ++ t.fontFamily.getD "",
     Severity.error⟩
  | none =>
    ⟨"Typography", true, "All text uses approved fonts", Severity.error⟩

def checkLogoPlacement (frame : Node) : AuditCheck :=
  match findLayer LAYER_NAMES.logo frame with
  | none => ⟨"Logo Placement", false, "Logo layer not found", Severity.warning⟩
  | some _ => ⟨"Logo Placement", true, "Logo correctly placed", Severity.warning⟩

def checkLayerStructure (frame : Node) : AuditCheck :=
  let validation := validate frame
  ⟨"Layer Structure", validation.valid,
   if validation.valid then "Layer structure follows convention"
   else validation.errors.headD "",
   if validation.errors.length > 0 then Severity.error else Severity.warning⟩

/-- `SAFE_ZONE = { margin: 0.05, minPixels: 20 }`. -/
def checkSafeZones (frame : Node) : AuditCheck :=
  let minMargin := max (min frame.width frame.height * (5 / 100)) 20
  ⟨"Safe Zones", true,
   "All text within " ++ toString (jsRound minMargin) ++ "px margin",
   Severity.warning⟩

def checkContrastRatio (_frame : Node) : AuditCheck :=
  ⟨"Contrast Ratio", true, "Contrast ratio: 4.5:1+ (WCAG AA compliant)",
   Severity.error⟩

def checkExportQuality (frame : Node) : AuditCheck :=
  if frame.width < 600 ∨ frame.height < 200 then
    ⟨"Export Quality", false, "Resolution below minimum", Severity.error⟩
  else
    ⟨"Export Quality", true,
     "Resolution: " ++ toString frame.width ++ "x" ++ toString frame.height ++
       "px",
     Severity.warning⟩

/-- The check array built by the seven `checks.push(...)` calls of
`AuditEngine.audit`, in source order. -/
def auditChecks (config : Option BrandConfig) (frame : Node) : List AuditCheck :=
  [checkColorCompliance frame, checkTypography config frame,
   checkLogoPlacement frame, checkLayerStructure frame,
   checkSafeZones frame, checkContrastRatio frame,
   checkExportQuality frame]

/-- `AuditEngine.audit`: the fixed battery of seven checks, score
`round((passed / total) * 100)`, `passed` iff no error-severity check
failed, and the messages of the non-passed warning-severity checks in
check order (`check.message || check.name`). -/
def audit (config : Option BrandConfig) (frame : Node) (now : ℤ) : AuditResult :=
  let checks := auditChecks config frame
  let passedChecks := (checks.filter (fun c => c.passed)).length
  let score := jsRound (((passedChecks : ℚ) / (checks.length : ℚ)) * 100)
  let warnings :=
    (checks.filter (fun c => !c.passed && c.severity == Severity.warning)).map
      (fun c => if c.message = "" then c.name else c.message)
  let passed :=
    (checks.filter (fun c => c.severity == Severity.error && !c.passed)).length = 0
  ⟨frame.id, frame.name, passed, score, checks, warnings, now⟩

/-! ## FeedbackSystem (`src/core/audit-engine.ts`, feedback part)

Timestamps are abstract integers; the cutoff `now − days` models
`cutoff.setDate(cutoff.getDate() - days)` on an abstract day-resolution
clock. -/

inductive Outcome where
  | approved | revised | rejected
deriving DecidableEq, Repr

inductive IssueCategory where
  | color | typography | layout | logo | other
deriving DecidableEq, Repr

def categoryStr : IssueCategory → String
  | IssueCategory.color => "color"
  | IssueCategory.typography => "typography"
  | IssueCategory.layout => "layout"
  | IssueCategory.logo => "logo"
  | IssueCategory.other => "other"

structure FeedbackIssue where
  category : IssueCategory
  severity : String
  description : String
deriving DecidableEq, Repr

structure FeedbackEntry where
  assetId : String
  timestamp : ℤ
  reviewer : String
  ratingOverall : ℚ
  issues : List FeedbackIssue
  outcome : Outcome
deriving DecidableEq, Repr

structure IssueCount where
  issue : String
  count : Nat
deriving DecidableEq, Repr

structure FeedbackSummary where
  totalAssets : Nat
  approvedFirstTry : Nat
  neededRevision : Nat
  rejected : Nat
  averageRating : ℚ
  commonIssues : List IssueCount
  periodStart : ℤ
  periodEnd : ℤ
deriving DecidableEq, Repr

/-- The `"category: description"` counter key. -/
def issueKey (i : FeedbackIssue) : String :=
  categoryStr i.category ++ ": " ++ i.description

/-- All issue keys of the filtered entries, in encounter order (the order
in which `issueCounter[key]` is first incremented). -/
def allIssueKeys (entries : List FeedbackEntry) : List String :=
  entries.flatMap (fun f => f.issues.map issueKey)

/-- Key list deduplicated keeping first occurrences: the iteration order of
`Object.entries` over a string-keyed record whose keys are never
array-index-like. -/
def dedupFirst : List String → List String
  | [] => []
  | k :: rest => k :: dedupFirst (rest.filter (fun x => x ≠ k))
termination_by l => l.length
decreasing_by
  simp only [List.length_cons]
  exact Nat.lt_succ_of_le (List.length_filter_le _ _)

/-- Rounding to one decimal: `Math.round(x * 10) / 10`. -/
def round10 (x : ℚ) : ℚ := (jsRound (x * 10) : ℚ) / 10

/-- `FeedbackSystem.getSummary`: window filter, per-outcome counts, mean
overall rating (0 when the window is empty) rounded to one decimal, and
the top 5 issue keys by occurrence count (stable sort of the
first-occurrence-ordered entries by descending count, then `slice(0, 5)`).
`templateHealth` is the constant empty record and is omitted. -/
def getSummary (feedbackLog : List FeedbackEntry) (now days : ℤ) :
    FeedbackSummary :=
  let cutoff := now - days
  let recentFeedback := feedbackLog.filter (fun f => cutoff ≤ f.timestamp)
  let totalAssets := recentFeedback.length
  let approvedFirstTry :=
    (recentFeedback.filter (fun f => f.outcome == Outcome.approved)).length
  let neededRevision :=
    (recentFeedback.filter (fun f => f.outcome == Outcome.revised)).length
  let rejected :=
    (recentFeedback.filter (fun f => f.outcome == Outcome.rejected)).length
  let averageRating : ℚ :=
    if 0 < totalAssets then
      (recentFeedback.foldl (fun sum f => sum + f.ratingOverall) 0) / totalAssets
    else 0
  let keys := allIssueKeys recentFeedback
  let commonIssues :=
    (sortS (fun x r => r.count < x.count)
      ((dedupFirst keys).map (fun k => ⟨k, keys.count k⟩))).take 5
  ⟨totalAssets, approvedFirstTry, neededRevision, rejected,
   round10 averageRating, commonIssues, cutoff, now⟩

/-! ## Verified properties -/

/-- A list of only-whitespace characters trims to the empty list. -/
theorem trimCL_eq_nil_of_all_ws (l : List Char)
    (h : l.all Char.isWhitespace = true) : trimCL l = [] := by
  unfold trimCL
  have h1 : l.dropWhile Char.isWhitespace = [] := by
    rw [List.dropWhile_eq_nil_iff]
    exact fun x hx => List.all_eq_true.mp h x hx
  rw [h1]
  rfl

/-- C10: an input whose text is empty or all whitespace and has no
explicit role is classified by the per-item classifier as `tag` with
confidence 0.9 and word count 0 (the trimmed empty string equals its own
upper-casing and has length ≤ 15). -/
theorem c10_whitespace_text_is_tag (s : String)
    (h : s.data.all Char.isWhitespace = true) :
    (detectType s).type = Role.tag ∧ (detectType s).confidence = 0.9 ∧
      (detectType s).wordCount = 0 := by
  have ht : trimCL s.data = [] := trimCL_eq_nil_of_all_ws _ h
  have hTag : isTag s = true := by
    simp only [isTag, ht]
    decide
  have hw : countWords s = 0 := by
    unfold countWords
    rw [ht]
    rfl
  refine ⟨?_, ?_, ?_⟩ <;> simp [detectType, hTag, hw]

theorem c10_witness :
    (("   " : String).data.all Char.isWhitespace = true) ∧
      ((detectType "   ").type = Role.tag ∧
        (detectType "   ").confidence = 0.9 ∧
        (detectType "   ").wordCount = 0) :=
  ⟨by decide, c10_whitespace_text_is_tag "   " (by decide)⟩

/-- C4 (counterexample): `"A B C D"` is its own trimming, is entirely
upper-case and is 7 ≤ 15 characters long, so the claim's word-count-free
upper-case branch would classify it as `tag`; the code classifies it as
`headline` because `isTag` returns early whenever the word count exceeds
3, before either branch is tried. -/
theorem c4_counterexample :
    (trimCL "A B C D".data = "A B C D".data ∧
      trimCL "A B C D".data = upperCL (trimCL "A B C D".data) ∧
      (trimCL "A B C D".data).length ≤ 15) ∧
      (detectType "A B C D").type ≠ Role.tag := by
  refine ⟨⟨?_, ?_, ?_⟩, ?_⟩ <;> decide

/-- The per-item classifier assigns `tag` exactly when `isTag` accepts. -/
theorem detectType_tag_iff_isTag (s : String) :
    (detectType s).type = Role.tag ↔ isTag s = true := by
  constructor
  · intro h
    cases hI : isTag s with
    | true => rfl
    | false =>
      exfalso
      simp only [detectType, hI] at h
      rw [if_neg (by simp)] at h
      split_ifs at h
  · intro hI
    simp [detectType, hI]

/-- `isTag` unfolded: the word-count bound guards both acceptance paths. -/
theorem isTag_iff (s : String) :
    isTag s = true ↔
      (cwAux false (trimCL s.data) ≤ 3 ∧
        (matchesTagPattern (trimCL s.data) = true ∨
          (trimCL s.data = upperCL (trimCL s.data) ∧
            (trimCL s.data).length ≤ 15))) := by
  simp only [isTag]
  split_ifs with g1 g2 g3
  · exact iff_of_false (by simp) (fun h => absurd h.1 (by omega))
  · exact iff_of_true rfl ⟨by omega, Or.inl g2⟩
  · rw [Bool.and_eq_true] at g3
    refine iff_of_true rfl ⟨by omega, Or.inr ?_⟩
    exact ⟨beq_iff_eq.mp g3.1, of_decide_eq_true g3.2⟩
  · apply iff_of_false (by simp)
    rintro ⟨hcw, hpat | ⟨hup, hlen⟩⟩
    · exact g2 hpat
    · refine g3 ?_
      rw [Bool.and_eq_true]
      exact ⟨beq_iff_eq.mpr hup, decide_eq_true hlen⟩

/-- C4 (amended): the per-item classifier assigns `tag` exactly when the
trimmed text has word count ≤ 3 AND (it matches one of the fixed
short-label patterns OR it is ≤ 15 characters and entirely upper-case):
the word-count precondition guards both branches. -/
theorem c4_tag_characterization (s : String) :
    (detectType s).type = Role.tag ↔
      (cwAux false (trimCL s.data) ≤ 3 ∧
        (matchesTagPattern (trimCL s.data) = true ∨
          (trimCL s.data = upperCL (trimCL s.data) ∧
            (trimCL s.data).length ≤ 15))) := by
  rw [detectType_tag_iff_isTag]
  rw [isTag_iff]

/-- C2 (counterexample): in the batch `["Alpha", "Beta"]` where both
inputs carry the explicit role `headline`, the output item for `"Beta"`
does not keep the explicit role: the batch-level hierarchy reconciliation
demotes every headline after the first, explicit or not. -/
theorem c2_counterexample :
    ∃ r ∈ analyze
      [⟨"Alpha", some Role.headline⟩, ⟨"Beta", some Role.headline⟩],
      r.text = "Beta" ∧ r.type ≠ Role.headline :=
  ⟨(analyze [⟨"Alpha", some Role.headline⟩,
      ⟨"Beta", some Role.headline⟩]).get ⟨1, by decide⟩,
   List.get_mem _ _ _, by decide, by decide⟩

/-- C2 (amended): the per-item stage of `analyze` maps an input with an
explicit role to that role with confidence 1.0 regardless of content; the
subsequent batch-level reconciliation, however, may demote a second
explicit headline to `subhead` (confidence × 0.8) or promote an explicit
non-`cta`/non-`tag` item to `headline` (confidence × 0.7) when the batch
has no headline. -/
theorem c2_explicit_role_per_item (input : TextInput) (r : Role)
    (h : input.type = some r) :
    (classifyInput input).type = r ∧ (classifyInput input).confidence = 1 := by
  simp [classifyInput, h]

theorem c2_witness :
    ((⟨"whatever text", some Role.cta⟩ : TextInput).type = some Role.cta) ∧
      (classifyInput ⟨"whatever text", some Role.cta⟩).type = Role.cta ∧
      (classifyInput ⟨"whatever text", some Role.cta⟩).confidence = 1 :=
  ⟨rfl, c2_explicit_role_per_item ⟨"whatever text", some Role.cta⟩ Role.cta rfl⟩

/-- C3 (counterexample): in the four-text batch of the claim, the input
`"Join thousands already using it."` is classified `cta`, not `body`: it
contains the action word `"join"` and has exactly 5 ≤ 5 words, so the
`cta` rule fires before the word-count/punctuation rules are reached. -/
theorem c3_counterexample :
    ((analyze
        [⟨"Launch Day Is Here", none⟩,
         ⟨"Join thousands already using it.", none⟩,
         ⟨"Get Started Today", none⟩, ⟨"NEW", none⟩]).find?
      (fun r => r.text == "Join thousands already using it.")).map
        (fun r => r.type) = some Role.cta ∧ Role.cta ≠ Role.body := by
  exact ⟨by decide, by decide⟩

/-- C3 (amended): the four texts classify as `headline`, `cta`, `cta`,
`tag` respectively ("Join thousands already using it." and "Get Started
Today" both contain action words and have ≤ 5 words); the returned batch
is reordered by role priority, tag first. -/
theorem c3_end_to_end :
    (analyze
        [⟨"Launch Day Is Here", none⟩,
         ⟨"Join thousands already using it.", none⟩,
         ⟨"Get Started Today", none⟩, ⟨"NEW", none⟩]).map
      (fun r => (r.text, r.type)) =
      [("NEW", Role.tag), ("Launch Day Is Here", Role.headline),
       ("Join thousands already using it.", Role.cta),
       ("Get Started Today", Role.cta)] := by
  decide

/-- Stable insertion preserves `countP`. -/
theorem countP_insertS (lt : α → α → Bool) (p : α → Bool) (r : α)
    (l : List α) : (insertS lt r l).countP p = (r :: l).countP p := by
  induction l with
  | nil => rfl
  | cons x xs ih =>
    simp only [insertS]
    split_ifs with h
    · simp only [List.countP_cons, ih]
      omega
    · rfl

/-- The stable sort preserves `countP`. -/
theorem countP_sortS (lt : α → α → Bool) (p : α → Bool) (l : List α) :
    (sortS lt l).countP p = l.countP p := by
  induction l with
  | nil => rfl
  | cons x xs ih =>
    simp only [sortS]
    rw [countP_insertS]
    simp [List.countP_cons, ih]

/-- After the demotion pass has already seen a headline, none remain. -/
theorem demote_true_countP (l : List AnalyzedText) :
    (demoteExtra true l).countP (fun r => r.type = Role.headline) = 0 := by
  induction l with
  | nil => rfl
  | cons r rest ih =>
    simp only [demoteExtra]
    split_ifs with h
    · simp [List.countP_cons, ih]
    · simp [List.countP_cons, ih, h]

/-- The demotion pass leaves at most one headline. -/
theorem demote_false_countP (l : List AnalyzedText) :
    (demoteExtra false l).countP (fun r => r.type = Role.headline) ≤ 1 := by
  induction l with
  | nil => simp [demoteExtra]
  | cons r rest ih =>
    by_cases h : r.type = Role.headline
    · rw [show demoteExtra false (r :: rest) = r :: demoteExtra true rest by
        simp [demoteExtra, h]]
      rw [List.countP_cons, demote_true_countP]
      simp [h]
    · rw [show demoteExtra false (r :: rest) = r :: demoteExtra false rest by
        simp [demoteExtra, h]]
      rw [List.countP_cons]
      simpa [h] using ih

/-- Promotion adds at most one headline. -/
theorem promote_countP (l : List AnalyzedText) :
    (promoteCandidate l).countP (fun r => r.type = Role.headline) ≤
      l.countP (fun r => r.type = Role.headline) + 1 := by
  induction l with
  | nil => simp [promoteCandidate]
  | cons r rest ih =>
    by_cases hb : (r.wordCount ≤ 15 && r.type != Role.cta &&
        r.type != Role.tag) = true
    · rw [show promoteCandidate (r :: rest) =
          { r with type := Role.headline, confidence := r.confidence * 0.7 } :: rest by
        simp [promoteCandidate, hb]]
      rw [List.countP_cons, List.countP_cons]
      simp only [decide_eq_true_eq]
      split_ifs <;> simp_all
    · rw [show promoteCandidate (r :: rest) = r :: promoteCandidate rest by
        simp [promoteCandidate, hb]]
      rw [List.countP_cons, List.countP_cons]
      omega

/-- C1: for a non-empty batch in which not every input supplied an
explicit role, the output of `analyze` contains at most one item with
role `headline`.  (The bound in fact holds for every batch: the
reconciliation pass demotes all headlines after the first and promotes at
most one when there is none.) -/
theorem c1_at_most_one_headline (inputs : List TextInput)
    (hne : inputs ≠ [])
    (hexp : ¬ ∀ i ∈ inputs, (i.type).isSome = true) :
    ((analyze inputs).filter (fun r => r.type = Role.headline)).length ≤ 1 := by
  unfold analyze
  generalize inputs.map classifyInput = results
  simp only [ensureHierarchy]
  rw [← List.countP_eq_length_filter, countP_sortS]
  by_cases h1 : 1 < (results.filter (fun r => r.type = Role.headline)).length
  · rw [if_pos h1, if_neg (by rintro ⟨h0, _⟩; omega)]
    exact demote_false_countP results
  · rw [if_neg h1]
    by_cases h0 : (results.filter (fun r => r.type = Role.headline)).length = 0 ∧
        0 < results.length
    · rw [if_pos h0]
      have hp := promote_countP results
      have hcp : results.countP (fun r => r.type = Role.headline) = 0 := by
        rw [List.countP_eq_length_filter]
        exact h0.1
      omega
    · rw [if_neg h0]
      rw [List.countP_eq_length_filter]
      omega

theorem c1_witness :
    (([⟨"Hello world", none⟩] : List TextInput) ≠ [] ∧
      ¬ ∀ i ∈ ([⟨"Hello world", none⟩] : List TextInput),
        (i.type).isSome = true) ∧
      ((analyze [⟨"Hello world", none⟩]).filter
        (fun r => r.type = Role.headline)).length ≤ 1 :=
  ⟨⟨by decide, by decide⟩,
   c1_at_most_one_headline [⟨"Hello world", none⟩] (by decide) (by decide)⟩

theorem jsRound_nonneg (x : ℚ) (h : 0 ≤ x) : 0 ≤ jsRound x := by
  unfold jsRound
  have hx : ((0 : ℤ) : ℚ) ≤ x + 1 / 2 := by push_cast; linarith
  exact Int.le_floor.mpr hx

theorem jsRound_le_hundred (x : ℚ) (h : x ≤ 100) : jsRound x ≤ 100 := by
  unfold jsRound
  have h2 : ⌊x + 1 / 2⌋ < (101 : ℤ) :=
    Int.floor_lt.mpr (by push_cast; linarith)
  omega

/-- The aggregate `passed` flag is false exactly when some error-severity
check failed. -/
theorem passed_false_iff (cs : List AuditCheck) :
    (decide ((cs.filter
        (fun c => c.severity == Severity.error && !c.passed)).length = 0) = false) ↔
      ∃ c ∈ cs, c.severity = Severity.error ∧ c.passed = false := by
  rw [decide_eq_false_iff_not, List.length_eq_zero]
  constructor
  · intro h
    obtain ⟨c, hcmem⟩ := List.exists_mem_of_ne_nil _ h
    have hm := List.mem_filter.mp hcmem
    refine ⟨c, hm.1, ?_⟩
    have hp := hm.2
    simp only [Bool.and_eq_true, beq_iff_eq, Bool.not_eq_true'] at hp
    exact hp
  · rintro ⟨c, hm, hs, hp⟩ hnil
    have hc : c ∈ cs.filter (fun c => c.severity == Severity.error && !c.passed) :=
      List.mem_filter.mpr ⟨hm, by simp [hs, hp]⟩
    rw [hnil] at hc
    exact absurd hc (List.not_mem_nil c)

/-- C5: `audit` runs exactly seven checks; the score is
`round(100 × passedCount / 7)` and lies in `[0, 100]`; the overall
`passed` flag is false iff at least one error-severity check failed; and
`warnings` is exactly the sequence of messages of the non-passed
warning-severity checks, in check order. -/
theorem c5_audit (config : Option BrandConfig) (frame : Node) (now : ℤ) :
    (audit config frame now).checks.length = 7 ∧
      (audit config frame now).score =
        jsRound (100 * (((audit config frame now).checks.filter
          (fun c => c.passed)).length : ℚ) / 7) ∧
      0 ≤ (audit config frame now).score ∧
      (audit config frame now).score ≤ 100 ∧
      ((audit config frame now).passed = false ↔
        ∃ c ∈ (audit config frame now).checks,
          c.severity = Severity.error ∧ c.passed = false) ∧
      (audit config frame now).warnings =
        ((audit config frame now).checks.filter
          (fun c => !c.passed && c.severity == Severity.warning)).map
          (fun c => if c.message = "" then c.name else c.message) := by
  have hch : (audit config frame now).checks = auditChecks config frame := rfl
  have hlen : (auditChecks config frame).length = 7 := rfl
  have hscore : (audit config frame now).score =
      jsRound ((((auditChecks config frame).filter
        (fun c => c.passed)).length : ℚ) /
        ((auditChecks config frame).length : ℚ) * 100) := rfl
  have hple : ((auditChecks config frame).filter (fun c => c.passed)).length ≤ 7 := by
    rw [← hlen]
    exact List.length_filter_le _ _
  have hcast : (((auditChecks config frame).filter
      (fun c => c.passed)).length : ℚ) ≤ 7 := by exact_mod_cast hple
  rw [hch]
  refine ⟨rfl, ?_, ?_, ?_, ?_, rfl⟩
  · rw [hscore, hlen]
    push_cast
    congr 1
    ring
  · rw [hscore]
    apply jsRound_nonneg
    positivity
  · rw [hscore]
    apply jsRound_le_hundred
    rw [hlen]
    push_cast
    rw [div_mul_eq_mul_div, div_le_iff₀ (by norm_num)]
    nlinarith [hcast]
  · exact passed_false_iff (auditChecks config frame)

/-- `THEMES[...]` misses entirely (a falsy lookup) only for ids that are
neither registered themes nor inherited `Object.prototype` members. -/
theorem THEMES_eq_undef (id : String)
    (h1 : id ∉ ["dark", "light", "bold", "minimal", "gradient"])
    (h2 : id ∉ OBJECT_PROTOTYPE_KEYS) :
    THEMES id = ThemeLookup.undef := by
  simp only [List.mem_cons, List.not_mem_nil, or_false, not_or] at h1
  obtain ⟨g1, g2, g3, g4, g5⟩ := h1
  have hc : ¬(OBJECT_PROTOTYPE_KEYS.contains id = true) := by simp [h2]
  simp only [THEMES, if_neg g1, if_neg g2, if_neg g3, if_neg g4, if_neg g5,
    if_neg hc]

/-- C6 (counterexample): `"toString"` is not one of the five registered
theme ids, yet `apply` is not a no-op for it: the object literal `THEMES`
inherits `Object.prototype`, so `THEMES['toString']` is truthy, the early
return is skipped, and the frame's fills are overwritten with the
fallback solid fill. -/
theorem c6_counterexample :
    ("toString" ∉ ["dark", "light", "bold", "minimal", "gradient"]) ∧
      (themeApply none
          (Node.mk "1" "Asset Frame" NodeType.FRAME [] [] true 1200 675 none)
          "toString").fills ≠
        (Node.mk "1" "Asset Frame" NodeType.FRAME [] [] true 1200 675
          none).fills := by
  refine ⟨by decide, ?_⟩
  have hT : THEMES "toString" = ThemeLookup.protoMember := by decide
  simp [themeApply, hT, applyBackgroundColor, applyTextColors,
    applyAccentColors, applyGlowEffect, setTextFills, setTextFillsList,
    findLayer, findLayerList, Node.setFills, Node.fills, Node.name,
    Node.type, Node.children, LAYER_NAMES.cta, LAYER_NAMES.decorative]

/-- C6 (amended): `ThemeEngine.apply` with a theme id that is neither one
of the five registered themes nor the name of an inherited
`Object.prototype` member leaves the tree unchanged (in particular no
node's fills or visibility is modified); for inherited member names such
as `toString` the lookup is truthy and `apply` instead overwrites fills
with the fallback color and hides an existing glow layer. -/
theorem c6_unknown_theme_noop (config : Option BrandConfig) (frame : Node)
    (themeId : String)
    (h1 : themeId ∉ ["dark", "light", "bold", "minimal", "gradient"])
    (h2 : themeId ∉ OBJECT_PROTOTYPE_KEYS) :
    themeApply config frame themeId = frame := by
  simp only [themeApply, THEMES_eq_undef themeId h1 h2]

theorem c6_witness :
    ("neon" ∉ ["dark", "light", "bold", "minimal", "gradient"] ∧
      "neon" ∉ OBJECT_PROTOTYPE_KEYS) ∧
      themeApply none
        (Node.mk "1" "Asset Frame" NodeType.FRAME [] [] true 1200 675 none)
        "neon" =
      Node.mk "1" "Asset Frame" NodeType.FRAME [] [] true 1200 675 none :=
  ⟨⟨by decide, by decide⟩,
   c6_unknown_theme_noop none
     (Node.mk "1" "Asset Frame" NodeType.FRAME [] [] true 1200 675 none)
     "neon" (by decide) (by decide)⟩

theorem jsRound_zero : jsRound 0 = 0 := by
  unfold jsRound
  rw [Int.floor_eq_zero_iff]
  constructor <;> norm_num

theorem round10_zero : round10 0 = 0 := by
  unfold round10
  rw [show (0 : ℚ) * 10 = 0 by ring, jsRound_zero]
  norm_num

theorem foldl_rating_sum (l : List FeedbackEntry) (a : ℚ) :
    l.foldl (fun sum f => sum + f.ratingOverall) a =
      a + (l.map (fun f => f.ratingOverall)).sum := by
  induction l generalizing a with
  | nil => simp
  | cons x xs ih => simp [ih, add_assoc]

/-- C9: `getSummary(days)` aggregates exactly the entries with
`timestamp ≥ now − days`: an empty window yields `averageRating = 0` and
empty `commonIssues`; otherwise `averageRating` is the mean overall
rating rounded to one decimal, and `commonIssues` is the top-5
`"category: description"` keys by occurrence count descending, ties
broken by first-occurrence order in the filtered set (at most 5). -/
theorem c9_getSummary (feedbackLog : List FeedbackEntry) (now days : ℤ) :
    (getSummary feedbackLog now days).totalAssets =
      (feedbackLog.filter (fun f => now - days ≤ f.timestamp)).length ∧
      (feedbackLog.filter (fun f => now - days ≤ f.timestamp) = [] →
        (getSummary feedbackLog now days).averageRating = 0 ∧
        (getSummary feedbackLog now days).commonIssues = []) ∧
      (feedbackLog.filter (fun f => now - days ≤ f.timestamp) ≠ [] →
        (getSummary feedbackLog now days).averageRating =
          round10 (((feedbackLog.filter
              (fun f => now - days ≤ f.timestamp)).map
            (fun f => f.ratingOverall)).sum /
            ((feedbackLog.filter
              (fun f => now - days ≤ f.timestamp)).length : ℚ))) ∧
      (getSummary feedbackLog now days).commonIssues =
        (sortS (fun x r => r.count < x.count)
          ((dedupFirst (allIssueKeys (feedbackLog.filter
              (fun f => now - days ≤ f.timestamp)))).map
            (fun k => ⟨k, (allIssueKeys (feedbackLog.filter
              (fun f => now - days ≤ f.timestamp))).count k⟩))).take 5 ∧
      (getSummary feedbackLog now days).commonIssues.length ≤ 5 := by
  refine ⟨rfl, ?_, ?_, rfl, List.length_take_le 5 _⟩
  · intro hr
    constructor
    · show round10 (if 0 < (feedbackLog.filter
          (fun f => now - days ≤ f.timestamp)).length then _ else 0) = 0
      rw [hr]
      simp [round10_zero]
    · show (sortS _ ((dedupFirst (allIssueKeys (feedbackLog.filter
          (fun f => now - days ≤ f.timestamp)))).map _)).take 5 = []
      rw [hr]
      simp [allIssueKeys, dedupFirst, sortS]
  · intro hr
    show round10 (if 0 < (feedbackLog.filter
        (fun f => now - days ≤ f.timestamp)).length then
        ((feedbackLog.filter (fun f => now - days ≤ f.timestamp)).foldl
          (fun sum f => sum + f.ratingOverall) 0) /
          ((feedbackLog.filter (fun f => now - days ≤ f.timestamp)).length : ℚ)
      else 0) = _
    rw [if_pos (List.length_pos.mpr hr), foldl_rating_sum]
    simp

theorem c9_witness :
    (([⟨"a1", 5, "r", 4, [], Outcome.approved⟩] : List FeedbackEntry).filter
        (fun f => (100 : ℤ) - 3 ≤ f.timestamp) = []) ∧
      (getSummary [⟨"a1", 5, "r", 4, [], Outcome.approved⟩] 100 3).averageRating = 0 ∧
      (getSummary [⟨"a1", 5, "r", 4, [], Outcome.approved⟩] 100 3).commonIssues = [] :=
  ⟨by decide,
   (c9_getSummary [⟨"a1", 5, "r", 4, [], Outcome.approved⟩] 100 3).2.1 (by decide)⟩

/-- A successful removal takes out one node bearing the requested name,
up to permutation. -/
theorem removeFirst_spec (nm : String) (cs : List Node) (c : Node)
    (rest : List Node) (h : removeFirstWithName nm cs = some (c, rest)) :
    c.name = nm ∧ cs.Perm (c :: rest) := by
  induction cs generalizing rest with
  | nil => simp [removeFirstWithName] at h
  | cons x t ih =>
    simp only [removeFirstWithName] at h
    split_ifs at h with hx
    · simp only [Option.some.injEq, Prod.mk.injEq] at h
      obtain ⟨h1, h2⟩ := h
      rw [← h1, ← h2]
      exact ⟨hx, List.Perm.refl _⟩
    · cases hrec : removeFirstWithName nm t with
      | none => rw [hrec] at h; simp at h
      | some q =>
        obtain ⟨d, rest0⟩ := q
        rw [hrec] at h
        simp only [Option.some.injEq, Prod.mk.injEq] at h
        obtain ⟨rfl, rfl⟩ := h
        obtain ⟨hd, hperm⟩ := ih rest0 hrec
        exact ⟨hd, (hperm.cons x).trans (List.Perm.swap _ x rest0)⟩

/-- Removal does not disturb the sublist of nodes kept by a predicate
that rejects every node bearing the removed name. -/
theorem removeFirst_filter (nm : String) (cs : List Node) (c : Node)
    (rest : List Node) (h : removeFirstWithName nm cs = some (c, rest))
    (p : Node → Bool) (hp : ∀ x : Node, x.name = nm → p x = false) :
    rest.filter p = cs.filter p := by
  induction cs generalizing rest with
  | nil => simp [removeFirstWithName] at h
  | cons x t ih =>
    simp only [removeFirstWithName] at h
    split_ifs at h with hx
    · simp only [Option.some.injEq, Prod.mk.injEq] at h
      obtain ⟨h1, h2⟩ := h
      rw [← h2, List.filter_cons_of_neg (by simp [hp x hx])]
    · cases hrec : removeFirstWithName nm t with
      | none => rw [hrec] at h; simp at h
      | some q =>
        obtain ⟨d, rest0⟩ := q
        rw [hrec] at h
        simp only [Option.some.injEq, Prod.mk.injEq] at h
        obtain ⟨rfl, rfl⟩ := h
        simp only [List.filter_cons]
        rw [ih rest0 hrec]

/-- Removal fails exactly when no node bears the name. -/
theorem removeFirst_none_iff (nm : String) (cs : List Node) :
    removeFirstWithName nm cs = none ↔ ∀ x ∈ cs, x.name ≠ nm := by
  induction cs with
  | nil => simp [removeFirstWithName]
  | cons x t ih =>
    simp only [removeFirstWithName]
    split_ifs with hx
    · exact iff_of_false (by simp)
        (fun hall => (hall x (List.mem_cons_self x t)) hx)
    · cases hrec : removeFirstWithName nm t with
      | none =>
        refine iff_of_true rfl ?_
        intro y hy
        rcases List.mem_cons.mp hy with rfl | hyt
        · exact hx
        · exact ih.mp hrec y hyt
      | some q =>
        obtain ⟨d, rest0⟩ := q
        refine iff_of_false (by simp) ?_
        intro hall
        have hnone : removeFirstWithName nm t = none :=
          ih.mpr (fun y hy => hall y (List.mem_cons_of_mem x hy))
        rw [hnone] at hrec
        simp at hrec

/-- Sequential extraction permutes the child list. -/
theorem extractAll_perm (names : List String) (cs : List Node)
    (pk r : List Node) (h : extractAll names cs = (pk, r)) :
    cs.Perm (pk ++ r) := by
  induction names generalizing cs pk r with
  | nil =>
    simp only [extractAll, Prod.mk.injEq] at h
    obtain ⟨rfl, rfl⟩ := h
    simp
  | cons nm nms ih =>
    simp only [extractAll] at h
    cases hrm : removeFirstWithName nm cs with
    | none =>
      rw [hrm] at h
      exact ih cs pk r h
    | some q =>
      obtain ⟨c, rest⟩ := q
      rw [hrm] at h
      dsimp only at h
      rcases he : extractAll nms rest with ⟨pk1, r1⟩
      rw [he] at h
      simp only [Prod.mk.injEq] at h
      obtain ⟨rfl, rfl⟩ := h
      exact ((removeFirst_spec nm cs c rest hrm).2).trans
        ((ih rest pk1 r1 he).cons c)

/-- The extracted prefix lists a subsequence of the requested names, in
their order. -/
theorem extractAll_sublist (names : List String) (cs : List Node)
    (pk r : List Node) (h : extractAll names cs = (pk, r)) :
    List.Sublist (pk.map (fun c => c.name)) names := by
  induction names generalizing cs pk r with
  | nil =>
    simp only [extractAll, Prod.mk.injEq] at h
    obtain ⟨rfl, rfl⟩ := h
    simp
  | cons nm nms ih =>
    simp only [extractAll] at h
    cases hrm : removeFirstWithName nm cs with
    | none =>
      rw [hrm] at h
      exact (ih cs pk r h).cons nm
    | some q =>
      obtain ⟨c, rest⟩ := q
      rw [hrm] at h
      dsimp only at h
      rcases he : extractAll nms rest with ⟨pk1, r1⟩
      rw [he] at h
      simp only [Prod.mk.injEq] at h
      obtain ⟨rfl, rfl⟩ := h
      simp only [List.map_cons]
      rw [(removeFirst_spec nm cs c rest hrm).1]
      exact (ih rest pk1 r1 he).cons₂ nm

/-- Every extracted node bears one of the requested names. -/
theorem extractAll_names (names : List String) (cs : List Node)
    (pk r : List Node) (h : extractAll names cs = (pk, r)) :
    ∀ x ∈ pk, x.name ∈ names := by
  intro x hx
  have hsub := extractAll_sublist names cs pk r h
  exact hsub.mem (List.mem_map_of_mem (fun c => c.name) hx)

/-- The remainder keeps, verbatim, the sublist selected by any predicate
that rejects all the requested names. -/
theorem extractAll_filter (names : List String) (cs : List Node)
    (pk r : List Node) (h : extractAll names cs = (pk, r))
    (p : Node → Bool) (hp : ∀ x : Node, x.name ∈ names → p x = false) :
    r.filter p = cs.filter p := by
  induction names generalizing cs pk r with
  | nil =>
    simp only [extractAll, Prod.mk.injEq] at h
    obtain ⟨rfl, rfl⟩ := h
    rfl
  | cons nm nms ih =>
    simp only [extractAll] at h
    cases hrm : removeFirstWithName nm cs with
    | none =>
      rw [hrm] at h
      exact ih cs pk r h (fun x hx => hp x (List.mem_cons_of_mem nm hx))
    | some q =>
      obtain ⟨c, rest⟩ := q
      rw [hrm] at h
      dsimp only at h
      rcases he : extractAll nms rest with ⟨pk1, r1⟩
      rw [he] at h
      simp only [Prod.mk.injEq] at h
      obtain ⟨rfl, rfl⟩ := h
      rw [ih rest pk1 r1 he (fun x hx => hp x (List.mem_cons_of_mem nm hx))]
      exact removeFirst_filter nm cs c rest hrm p
        (fun x hx => hp x (hx ▸ List.mem_cons_self nm nms))

/-- Extraction is idempotent on its own output arrangement. -/
theorem extractAll_idem (names : List String) (cs : List Node)
    (pk r : List Node) (h : extractAll names cs = (pk, r)) :
    extractAll names (pk ++ r) = (pk, r) := by
  induction names generalizing cs pk r with
  | nil =>
    simp only [extractAll, Prod.mk.injEq] at h
    obtain ⟨rfl, rfl⟩ := h
    rfl
  | cons nm nms ih =>
    simp only [extractAll] at h
    cases hrm : removeFirstWithName nm cs with
    | none =>
      rw [hrm] at h
      have hnone : removeFirstWithName nm (pk ++ r) = none := by
        rw [removeFirst_none_iff]
        intro x hx
        exact (removeFirst_none_iff nm cs).mp hrm x
          ((extractAll_perm nms cs pk r h).mem_iff.mpr hx)
      simp only [extractAll, hnone]
      exact ih cs pk r h
    | some q =>
      obtain ⟨c, rest⟩ := q
      rw [hrm] at h
      dsimp only at h
      rcases he : extractAll nms rest with ⟨pk1, r1⟩
      rw [he] at h
      simp only [Prod.mk.injEq] at h
      obtain ⟨rfl, rfl⟩ := h
      have hc : removeFirstWithName nm ((c :: pk1) ++ r1) =
          some (c, pk1 ++ r1) := by
        simp only [List.cons_append, removeFirstWithName,
          if_pos (removeFirst_spec nm cs c rest hrm).1]
        rfl
      simp only [extractAll, hc]
      rw [ih rest pk1 r1 he]

/-- Removing a node bearing one name does not change whether any node
bears a different name. -/
theorem removeFirst_any (nm nmq : String) (hne : nmq ≠ nm) (cs : List Node)
    (c : Node) (rest : List Node)
    (h : removeFirstWithName nm cs = some (c, rest)) :
    rest.any (fun x => x.name == nmq) = cs.any (fun x => x.name == nmq) := by
  induction cs generalizing rest with
  | nil => simp [removeFirstWithName] at h
  | cons x t ih =>
    simp only [removeFirstWithName] at h
    split_ifs at h with hx
    · simp only [Option.some.injEq, Prod.mk.injEq] at h
      obtain ⟨h1, h2⟩ := h
      rw [← h2]
      have hpx : (x.name == nmq) = false := by
        simp only [beq_eq_false_iff_ne]
        rw [hx]
        exact fun hc => hne hc.symm
      simp [List.any_cons, hpx]
    · cases hrec : removeFirstWithName nm t with
      | none => rw [hrec] at h; simp at h
      | some q =>
        obtain ⟨d, rest0⟩ := q
        rw [hrec] at h
        simp only [Option.some.injEq, Prod.mk.injEq] at h
        obtain ⟨h1, h2⟩ := h
        rw [← h2]
        rw [h1] at hrec
        simp [List.any_cons, ih rest0 hrec]

/-- The extracted prefix bears exactly the requested names that occur in
the child list, in the requested order (names pairwise distinct). -/
theorem extractAll_names_exact : ∀ (names : List String), names.Nodup →
    ∀ (cs pk r : List Node), extractAll names cs = (pk, r) →
    pk.map (fun c => c.name) =
      names.filter (fun nm => cs.any (fun c => c.name == nm)) := by
  intro names
  induction names with
  | nil =>
    intro _ cs pk r h
    simp only [extractAll, Prod.mk.injEq] at h
    obtain ⟨rfl, rfl⟩ := h
    simp
  | cons nm nms ih =>
    intro hnd cs pk r h
    obtain ⟨hnotmem, hnd2⟩ := List.nodup_cons.mp hnd
    simp only [extractAll] at h
    cases hrm : removeFirstWithName nm cs with
    | none =>
      rw [hrm] at h
      have hno : cs.any (fun c => c.name == nm) = false := by
        rw [List.any_eq_false]
        intro x hx
        simp [(removeFirst_none_iff nm cs).mp hrm x hx]
      rw [List.filter_cons_of_neg (by simp [hno])]
      exact ih hnd2 cs pk r h
    | some q =>
      obtain ⟨c, rest⟩ := q
      rw [hrm] at h
      dsimp only at h
      rcases he : extractAll nms rest with ⟨pk1, r1⟩
      rw [he] at h
      simp only [Prod.mk.injEq] at h
      obtain ⟨rfl, rfl⟩ := h
      have hcname := (removeFirst_spec nm cs c rest hrm).1
      have hcmem : c ∈ cs :=
        ((removeFirst_spec nm cs c rest hrm).2).mem_iff.mpr
          (List.mem_cons_self c rest)
      have hyes : cs.any (fun x => x.name == nm) = true :=
        List.any_eq_true.mpr ⟨c, hcmem, by simp [hcname]⟩
      rw [List.filter_cons_of_pos (by simp [hyes])]
      simp only [List.map_cons]
      rw [hcname]
      congr 1
      rw [ih hnd2 rest pk1 r1 he]
      apply List.filter_congr
      intro nmq hmem
      exact removeFirst_any nm nmq (fun hc => hnotmem (hc ▸ hmem)) cs c rest hrm

/-- C8: the reordering step emits a permutation of the original child
sequence: the extracted leading block bears exactly the canonical names
`background, decorative, branding, content` that occur among the
children, listed in that fixed order (so every present canonical child
is moved to the front), and all other children follow preserving their
original relative order. -/
theorem c8_organize_perm_stable (frame : Node) :
    (organizeLayerOrder frame.children).Perm frame.children ∧
      organizeLayerOrder frame.children =
        (extractAll LAYER_ORDER frame.children).1 ++
          (extractAll LAYER_ORDER frame.children).2 ∧
      ((extractAll LAYER_ORDER frame.children).1).map (fun c => c.name) =
        LAYER_ORDER.filter
          (fun nm => frame.children.any (fun c => c.name == nm)) ∧
      List.Sublist (((extractAll LAYER_ORDER frame.children).1).map
        (fun c => c.name)) LAYER_ORDER ∧
      (organizeLayerOrder frame.children).filter
          (fun c => !(LAYER_ORDER.contains c.name)) =
        frame.children.filter (fun c => !(LAYER_ORDER.contains c.name)) := by
  rcases h : extractAll LAYER_ORDER frame.children with ⟨pk, r⟩
  have horg : organizeLayerOrder frame.children = pk ++ r := by
    simp only [organizeLayerOrder, h]
  have hperm := extractAll_perm LAYER_ORDER frame.children pk r h
  refine ⟨horg ▸ hperm.symm, by simp [horg, h], ?_, ?_, ?_⟩
  · exact extractAll_names_exact LAYER_ORDER (by decide)
      frame.children pk r h
  · exact extractAll_sublist LAYER_ORDER frame.children pk r h
  rw [horg, List.filter_append]
  have hpk : pk.filter (fun c => !(LAYER_ORDER.contains c.name)) = [] := by
    rw [List.filter_eq_nil_iff]
    intro a ha
    have := extractAll_names LAYER_ORDER frame.children pk r h a ha
    simp [this]
  rw [hpk, List.nil_append]
  exact extractAll_filter LAYER_ORDER frame.children pk r h _
    (fun x hx => by simp [hx])

set_option maxHeartbeats 1000000 in
/-- Every canonical name the renaming table emits is a fixed point of the
table for the node kind that produced it. -/
theorem getNormalizedName_fixed (s : String) (ty : NodeType) (nm : String)
    (h : getNormalizedName s ty = some nm) :
    getNormalizedName nm ty = some nm := by
  unfold getNormalizedName at h ⊢
  generalize lowerS s = cn at h
  unfold gnn at h
  cases ty with
  | TEXT =>
    simp only [show (NodeType.TEXT == NodeType.TEXT) = true from rfl,
      show (NodeType.TEXT == NodeType.FRAME) = false from rfl,
      show (NodeType.TEXT == NodeType.GROUP) = false from rfl,
      show (NodeType.TEXT == NodeType.ELLIPSE) = false from rfl,
      Bool.true_and, Bool.false_and, Bool.and_false, Bool.and_true,
      Bool.false_or, Bool.or_false, Bool.not_true, Bool.not_false,
      Bool.false_eq_true, if_false, eq_self_iff_true, if_true] at h
    split_ifs at h with h1 h2 h3 h4 h5
    · have he := Option.some.inj h
      subst he
      decide
    · have he := Option.some.inj h
      subst he
      decide
    · have he := Option.some.inj h
      subst he
      decide
    · have he := Option.some.inj h
      subst he
      decide
    · have he := Option.some.inj h
      subst he
      decide
  | FRAME =>
    simp only [show (NodeType.FRAME == NodeType.TEXT) = false from rfl,
      show (NodeType.FRAME == NodeType.FRAME) = true from rfl,
      show (NodeType.FRAME == NodeType.GROUP) = false from rfl,
      show (NodeType.FRAME == NodeType.ELLIPSE) = false from rfl,
      Bool.true_and, Bool.false_and, Bool.and_false, Bool.and_true,
      Bool.false_or, Bool.or_false, Bool.not_true, Bool.not_false,
      Bool.false_eq_true, if_false, eq_self_iff_true, if_true] at h
    split_ifs at h with h1 h2 h3 h4 h5
    · have he := Option.some.inj h
      subst he
      decide
    · have he := Option.some.inj h
      subst he
      decide
    · have he := Option.some.inj h
      subst he
      decide
    · have he := Option.some.inj h
      subst he
      decide
    · exact absurd (by simp [h5] : (containsS cn "brand" || containsS cn "logo") = true) h2
  | GROUP =>
    simp only [show (NodeType.GROUP == NodeType.TEXT) = false from rfl,
      show (NodeType.GROUP == NodeType.FRAME) = false from rfl,
      show (NodeType.GROUP == NodeType.GROUP) = true from rfl,
      show (NodeType.GROUP == NodeType.ELLIPSE) = false from rfl,
      Bool.true_and, Bool.false_and, Bool.and_false, Bool.and_true,
      Bool.false_or, Bool.or_false, Bool.true_or, Bool.not_true,
      Bool.not_false, Bool.false_eq_true, if_false, eq_self_iff_true,
      if_true] at h
    split_ifs at h with h1 h2 h3 h4 h5
    · have he := Option.some.inj h
      subst he
      decide
    · have he := Option.some.inj h
      subst he
      decide
    · have he := Option.some.inj h
      subst he
      decide
    · have he := Option.some.inj h
      subst he
      decide
    · exact absurd (by simp [h5] : (containsS cn "brand" || containsS cn "logo") = true) h2
  | ELLIPSE =>
    simp only [show (NodeType.ELLIPSE == NodeType.TEXT) = false from rfl,
      show (NodeType.ELLIPSE == NodeType.FRAME) = false from rfl,
      show (NodeType.ELLIPSE == NodeType.GROUP) = false from rfl,
      show (NodeType.ELLIPSE == NodeType.ELLIPSE) = true from rfl,
      Bool.true_and, Bool.false_and, Bool.and_false, Bool.and_true,
      Bool.false_or, Bool.or_false, Bool.not_true, Bool.not_false,
      Bool.false_eq_true, if_false, eq_self_iff_true, if_true] at h
    split_ifs at h with h1 h2
    · have he := Option.some.inj h
      subst he
      decide
    · have he := Option.some.inj h
      subst he
      decide
  | RECTANGLE =>
    simp only [show (NodeType.RECTANGLE == NodeType.TEXT) = false from rfl,
      show (NodeType.RECTANGLE == NodeType.FRAME) = false from rfl,
      show (NodeType.RECTANGLE == NodeType.GROUP) = false from rfl,
      show (NodeType.RECTANGLE == NodeType.ELLIPSE) = false from rfl,
      Bool.true_and, Bool.false_and, Bool.and_false, Bool.and_true,
      Bool.false_or, Bool.or_false, Bool.not_true, Bool.not_false,
      Bool.false_eq_true, if_false, eq_self_iff_true, if_true] at h
    split_ifs at h with h1
    · have he := Option.some.inj h
      subst he
      decide

mutual

/-- Renaming a node (and its descendants) is idempotent. -/
theorem normalizeNode_idem (n : Node) :
    normalizeNode (normalizeNode n) = normalizeNode n := by
  cases n with
  | mk i nm ty cs f v w h ff =>
    cases hgn : getNormalizedName nm ty with
    | none =>
      simp only [normalizeNode, hgn]
      rw [normalizeList_idem cs]
    | some m =>
      have hfix := getNormalizedName_fixed nm ty m hgn
      simp only [normalizeNode, hgn, hfix]
      rw [normalizeList_idem cs]
termination_by sizeOf n

theorem normalizeList_idem (l : List Node) :
    normalizeList (normalizeList l) = normalizeList l := by
  cases l with
  | nil => simp [normalizeList]
  | cons c cs =>
    simp only [normalizeList]
    rw [normalizeNode_idem c, normalizeList_idem cs]
termination_by sizeOf l

end

/-- Every element of a normalized list is a fixed point of renaming. -/
theorem normalizeList_mem_fixed (l : List Node) :
    ∀ x ∈ normalizeList l, normalizeNode x = x := by
  induction l with
  | nil => simp [normalizeList]
  | cons c cs ih =>
    intro x hx
    simp only [normalizeList, List.mem_cons] at hx
    rcases hx with rfl | hx
    · exact normalizeNode_idem c
    · exact ih x hx

/-- A list of renaming fixed points normalizes to itself. -/
theorem normalizeList_fixed_of (l : List Node)
    (h : ∀ x ∈ l, normalizeNode x = x) : normalizeList l = l := by
  induction l with
  | nil => simp [normalizeList]
  | cons c cs ih =>
    simp only [normalizeList]
    rw [h c (List.mem_cons_self c cs),
      ih (fun x hx => h x (List.mem_cons_of_mem c hx))]

/-- Reordering the child list twice equals reordering it once. -/
theorem organize_idem (cs : List Node) :
    organizeLayerOrder (organizeLayerOrder cs) = organizeLayerOrder cs := by
  rcases h : extractAll LAYER_ORDER cs with ⟨pk, r⟩
  have h2 := extractAll_idem LAYER_ORDER cs pk r h
  simp only [organizeLayerOrder, h, h2]

/-- Reordering only permutes: the output children all come from the
input. -/
theorem organize_mem (cs : List Node) :
    ∀ x ∈ organizeLayerOrder cs, x ∈ cs := by
  rcases h : extractAll LAYER_ORDER cs with ⟨pk, r⟩
  intro x hx
  simp only [organizeLayerOrder, h] at hx
  exact (extractAll_perm LAYER_ORDER cs pk r h).mem_iff.mpr hx

/-- C7: `LayerManager.applyNaming` is idempotent: applying it twice
produces the same tree (same node names, same child order) as applying
it once. -/
theorem c7_applyNaming_idem (node : Node) :
    applyNaming (applyNaming node) = applyNaming node := by
  cases node with
  | mk i nm ty cs f v w h ff =>
    simp only [applyNaming, normalizeLayerNames, Node.setChildren,
      Node.children]
    have hX : normalizeList (organizeLayerOrder (normalizeList cs)) =
        organizeLayerOrder (normalizeList cs) :=
      normalizeList_fixed_of _ (fun x hx =>
        normalizeList_mem_fixed cs x (organize_mem (normalizeList cs) x hx))
    rw [hX, organize_idem]

